import Mathlib

/-!
# Verification of the titanoboa module registry and orchestration runner

Shallow embedding of `src/main.py` (CyberForgeX/titanoboa): the module
registry (`Framework.modules`, `register_module`, `run_module`), the
discovery scanner (`auto_discover_and_register`), the dispatch loop in
`titanoboa`, the producer/consumer pair (`Client.run_client`,
`Server.run_server`) over the shared FIFO queue, and the CLI handler
(`main`).

Modelling conventions:
* The shared `Queue` is a `List String`, front of the list = front of the
  queue (`put` appends at the back, `get` pops the front).
* A loaded Python module object is modelled by `Module`: an identity tag
  plus `runOk`, which says whether awaiting its `run` coroutine completes
  normally (`true`) or raises (`false`).
* `Framework.modules` is a Python 3.7+ dict, hence an insertion-ordered
  map: modelled as an association list with unique keys, appended at the
  back on insertion.
* Failures that the code reports through `logging.error` are modelled as
  structured outcome/event values (`RegOutcome.dup`, `DiscEvent.loadFailure`,
  …); the spec's error taxonomy (`DuplicateUnitError`, `UnitNotFoundError`,
  `UnitLoadError`) names exactly these reported rejections.
* `importlib.import_module` is an external effect: modelled as an oracle
  `load : String → Option Module` (`none` = the import raised).
* The filesystem seen by discovery is an oracle `fs : String → Dir` giving,
  for each category directory, whether `os.path.exists` holds and what
  `os.listdir` returns (in arbitrary order; the code sorts it).
-/

namespace Titanoboa

/-- A loaded module object (the value `importlib.import_module` returns).
`id` distinguishes distinct module objects; `runOk` records whether
`await module.run(shared_libs, *args)` completes normally (`true`) or
raises an exception (`false`). -/
structure Module where
  id : Nat
  runOk : Bool
deriving DecidableEq, Repr

/-- Opaque handle for the shared execution context (`self.shared_libs`). -/
abbrev Ctx := Nat

/-- Opaque extra positional arguments forwarded by `run_module` (`*args`). -/
abbrev Args := List Nat

/-- The `Framework` state relevant to registration and dispatch:
`self.modules`, an insertion-ordered mapping name ↦ module. -/
structure Fw where
  modules : List (String × Module)
deriving DecidableEq, Repr

/-- The names currently registered, in registration (insertion) order. -/
def Fw.names (fw : Fw) : List String :=
  fw.modules.map Prod.fst

/-- Python's `name in self.modules` membership test. -/
def Fw.hasName (fw : Fw) (name : String) : Bool :=
  fw.names.contains name

/-- Python's `self.modules[name]` dict read (first binding; keys are unique
in any state reachable through `register_module`). -/
def Fw.lookup (fw : Fw) (name : String) : Option Module :=
  (fw.modules.find? (fun p => p.1 == name)).map Prod.snd

/-- The fresh framework: `self.modules = {}` in `Framework.__init__`. -/
def Fw.init : Fw := ⟨[]⟩

/-- Outcome of one `register_module` call.  `dup` corresponds to the
`logging.error(f"Module {name} already exists!")` rejection report (the
spec's `DuplicateUnitError`); `ok` to the success log line. -/
inductive RegOutcome where
  | ok
  | dup
deriving DecidableEq, Repr

/-- `Framework.register_module` (src/main.py lines 109–114): if `name` is
already a key of `self.modules`, log an error and return without touching
the dict; otherwise insert `self.modules[name] = module` and log success. -/
def register_module (fw : Fw) (name : String) (m : Module) : Fw × RegOutcome :=
  if fw.hasName name then
    (fw, RegOutcome.dup)
  else
    (⟨fw.modules ++ [(name, m)]⟩, RegOutcome.ok)

/-- Apply a sequence of `register_module` calls left to right, keeping the
final state. -/
def applyRegisters (fw : Fw) : List (String × Module) → Fw
  | [] => fw
  | (name, m) :: rest => applyRegisters (register_module fw name m).1 rest

/-- One awaited entry-point invocation `await module.run(shared_libs, *args)`:
which name was dispatched, the module object invoked, the context passed,
and the forwarded arguments. -/
structure Invocation where
  name : String
  mod : Module
  ctx : Ctx
  args : Args
deriving DecidableEq, Repr

/-- Result of one `Framework.run_module` call: the log lines it emits
(only the "not found" rejection), the entry-point invocations it performs
(zero or one), and whether the awaited coroutine raised out of the call. -/
structure RunOut where
  notFoundLogged : Bool
  invoked : List Invocation
  raised : Bool
deriving DecidableEq, Repr

/-- `Framework.run_module` (src/main.py lines 116–122): if `name` is not in
`self.modules`, log `Module {name} not found!` and return (no invocation);
otherwise `await module.run(self.shared_libs, *args, **kwargs)` — the
invocation happens, and an exception from the module's `run` propagates
uncaught (`raised`). -/
def run_module (fw : Fw) (name : String) (ctx : Ctx) (args : Args) : RunOut :=
  match fw.lookup name with
  | none => ⟨true, [], false⟩
  | some m => ⟨false, [⟨name, m, ctx, args⟩], !m.runOk⟩

/-- The dispatch loop in `titanoboa` (src/main.py lines 234–236):
`for module in app.modules: asyncio.run(app.run_module(module))`, iterating
the dict's keys in insertion order.  Nothing catches an exception escaping
`asyncio.run`, so a raising unit aborts the loop: the result is the
invocations performed before the abort and whether the loop crashed. -/
def dispatchLoop (fw : Fw) (ctx : Ctx) : List String → List Invocation × Bool
  | [] => ([], false)
  | name :: rest =>
    let out := run_module fw name ctx []
    if out.raised then
      (out.invoked, true)
    else
      let (is, c) := dispatchLoop fw ctx rest
      (out.invoked ++ is, c)

/-- `run_all`: the whole `for module in app.modules` loop of `titanoboa`. -/
def run_all (fw : Fw) (ctx : Ctx) : List Invocation × Bool :=
  dispatchLoop fw ctx fw.names

/-! ## Shared channel, Server (consumer) and Client (producer) -/

/-- The shared FIFO channel `shared_libs.communication_queue`: a queue of
string messages, head of the list = front of the queue. -/
abbrev Chan := List String

/-- The consumer's reply string: `f"Server acknowledged: {data}"`. -/
def serverAck (data : String) : String := "Server acknowledged: " ++ data

/-- One iteration of the `while True` body of `Server.run_server`
(src/main.py lines 181–186): if the queue is non-empty, pop one entry and
push the derived acknowledgment onto the same queue; otherwise do
nothing. -/
def serverStep (q : Chan) : Chan :=
  match q with
  | [] => q
  | data :: rest => rest ++ [serverAck data]

/-- The small-step relation of the consumer loop: one `while True`
iteration takes the channel from `q` to `q'`.  The loop body is total, so
this relation has no terminal state. -/
def ServerSteps (q q' : Chan) : Prop := q' = serverStep q

/-- The message the client sends in iteration `i`: `f"Client message {i}"`. -/
def clientMessage (i : Nat) : String := "Client message " ++ toString i

/-- An observable action of `Client.run_client`. -/
inductive ClientEvent where
  | push (msg : String)
  | wait (seconds : Nat)
  | pop (msg : String)
deriving DecidableEq, Repr

/-- One iteration of the `for i in range(5)` body of `Client.run_client`
(src/main.py lines 198–206): push `Client message i`, wait one second
(`threading.Event().wait(1)`), then — only if the queue is non-empty at
the check — pop one entry.  `obs i` is the channel contents the client
observes at the emptiness check of iteration `i` (the consumer thread runs
concurrently, so this is an oracle, not derived from the client's own
pushes). -/
def clientIter (obs : Nat → Chan) (i : Nat) : List ClientEvent :=
  [ClientEvent.push (clientMessage i), ClientEvent.wait 1] ++
    (match obs i with
     | [] => []
     | r :: _ => [ClientEvent.pop r])

/-- `Client.run_client`: the full action trace of the `for i in range(n)`
loop (the source fixes `n = 5`). -/
def run_client (obs : Nat → Chan) (n : Nat) : List ClientEvent :=
  (List.range n).flatMap (clientIter obs)

/-- Is this client event a push? -/
def isPush : ClientEvent → Bool
  | ClientEvent.push _ => true
  | _ => false

/-- Is this client event a pop? -/
def isPop : ClientEvent → Bool
  | ClientEvent.pop _ => true
  | _ => false

/-- Count the push events of a client trace. -/
def countPush (tr : List ClientEvent) : Nat := tr.countP isPush

/-- Count the pop events of a client trace. -/
def countPop (tr : List ClientEvent) : Nat := tr.countP isPop

/-! ## Discovery scanner -/

/-- The fixed category list `self.module_types`. -/
def module_types : List String :=
  ["models", "controllers", "services", "utils", "security"]

/-- One category directory as discovery sees it: `present` is
`os.path.exists(f"./{module_type}")`, `files` is what `os.listdir` returns
(order arbitrary; the code sorts it). -/
structure Dir where
  present : Bool
  files : List String
deriving DecidableEq, Repr

/-- A filesystem oracle: the directory state of each category. -/
abbrev FS := String → Dir

/-- Python's `'orchestrate' in file` substring test, on character lists. -/
def containsOrchestrate (f : String) : Bool :=
  f.toList.tails.any (fun t => "orchestrate".toList.isPrefixOf t)

/-- The candidate filter `file.endswith(".py") and 'orchestrate' in file`. -/
def isCandidate (f : String) : Bool :=
  ".py".toList.isSuffixOf f.toList && containsOrchestrate f

/-- Python's `file[:-3]`: the filename with its last three characters
(the `.py` suffix, once `isCandidate` holds) removed. -/
def stem (f : String) : String :=
  ⟨f.toList.dropLast.dropLast.dropLast⟩

/-- The registered name `f"{module_type}.{file[:-3]}"`. -/
def unitName (t : String) (f : String) : String :=
  t ++ "." ++ stem f

/-- Lexicographic code-point comparison of character lists — the order
Python's `<=` uses on strings. -/
def charListLe : List Char → List Char → Bool
  | [], _ => true
  | _ :: _, [] => false
  | a :: as, b :: bs =>
    if a.toNat < b.toNat then true
    else if b.toNat < a.toNat then false
    else charListLe as bs

/-- Python's `<=` on strings: lexicographic by code point. -/
def strLe (a b : String) : Bool := charListLe a.data b.data

/-- Python's `sorted` on a list of filenames: ascending lexicographic
order. -/
def pySorted (l : List String) : List String :=
  l.insertionSort (fun a b => strLe a b = true)

/-- One observable event of `auto_discover_and_register`:
`loadFailure name` is the `logging.error(f"Failed to load {name}: {e}")`
line emitted when `importlib.import_module` raises (the spec's
`UnitLoadError`); `registered name` is a successful registration;
`dupRejected name` is `register_module`'s duplicate rejection. -/
inductive DiscEvent where
  | loadFailure (name : String)
  | registered (name : String)
  | dupRejected (name : String)
deriving DecidableEq, Repr

/-- The unit name an event is about. -/
def DiscEvent.name : DiscEvent → String
  | loadFailure n => n
  | registered n => n
  | dupRejected n => n

/-- The inner `for file in sorted(os.listdir(dir_path))` loop of
`auto_discover_and_register`, over an already-sorted file list: each
candidate file is resolved through the `load` oracle inside a
`try/except`; an import failure is logged and the loop continues;
a successful import is handed to `register_module`. -/
def processFiles (load : String → Option Module) (t : String) :
    List String → Fw → Fw × List DiscEvent
  | [], fw => (fw, [])
  | f :: rest, fw =>
    if isCandidate f then
      match load (unitName t f) with
      | none =>
        let (fw', evs) := processFiles load t rest fw
        (fw', DiscEvent.loadFailure (unitName t f) :: evs)
      | some m =>
        let (fw₁, out) := register_module fw (unitName t f) m
        let ev := match out with
          | RegOutcome.ok => DiscEvent.registered (unitName t f)
          | RegOutcome.dup => DiscEvent.dupRejected (unitName t f)
        let (fw', evs) := processFiles load t rest fw₁
        (fw', ev :: evs)
    else
      processFiles load t rest fw

/-- Discovery over one category: skipped silently when
`os.path.exists(f"./{module_type}")` is false, otherwise the sorted
listing is scanned.  -/
def discoverCategory (load : String → Option Module) (t : String) (d : Dir)
    (fw : Fw) : Fw × List DiscEvent :=
  if d.present then processFiles load t (pySorted d.files) fw
  else (fw, [])

/-- The outer `for module_type in self.module_types` loop. -/
def discoverCats (load : String → Option Module) (fs : FS) :
    List String → Fw → Fw × List DiscEvent
  | [], fw => (fw, [])
  | t :: ts, fw =>
    let (fw₁, evs₁) := discoverCategory load t (fs t) fw
    let (fw₂, evs₂) := discoverCats load fs ts fw₁
    (fw₂, evs₁ ++ evs₂)

/-- `Framework.auto_discover_and_register` (src/main.py lines 95–107). -/
def auto_discover_and_register (load : String → Option Module) (fs : FS)
    (fw : Fw) : Fw × List DiscEvent :=
  discoverCats load fs module_types fw

/-- Is this a successful-registration event? -/
def isRegisteredEv : DiscEvent → Bool
  | DiscEvent.registered _ => true
  | _ => false

/-- Is this a logged-load-failure event? -/
def isLoadFailureEv : DiscEvent → Bool
  | DiscEvent.loadFailure _ => true
  | _ => false

/-- Count of `registered` events. -/
def countRegistered (evs : List DiscEvent) : Nat := evs.countP isRegisteredEv

/-- Count of `loadFailure` events (logged load failures). -/
def countLoadFailures (evs : List DiscEvent) : Nat := evs.countP isLoadFailureEv

/-- The candidates of one category directory, in processing order. -/
def candidates (d : Dir) : List String :=
  if d.present then (pySorted d.files).filter isCandidate else []

/-- The number of candidates of category `t` whose resolution succeeds. -/
def goodCount (load : String → Option Module) (t : String) (d : Dir) : Nat :=
  ((candidates d).filter (fun f => (load (unitName t f)).isSome)).length

/-- The number of candidates of category `t` whose resolution fails. -/
def badCount (load : String → Option Module) (t : String) (d : Dir) : Nat :=
  ((candidates d).filter (fun f => (load (unitName t f)).isNone)).length

/-! ## Startup sequence (`titanoboa`) and CLI handler (`main`) -/

/-- An observable step of the startup sequence. `generate` is the
`generate_orchestrators('./')` call, `disc e` a discovery/registration
event, `startServer`/`startClient` the two `threading.Thread(...).start()`
calls, `dispatch i` one awaited unit invocation of the final
`for module in app.modules` loop, and `unknownCommandError` the
`logging.error("Unknown command")` rejection in `main`. -/
inductive StartupEvent where
  | generate
  | disc (e : DiscEvent)
  | startServer
  | startClient
  | dispatch (i : Invocation)
  | unknownCommandError
deriving DecidableEq, Repr

/-- Is this a thread-start event (Producer or Consumer start)? -/
def isStart : StartupEvent → Bool
  | StartupEvent.startServer => true
  | StartupEvent.startClient => true
  | _ => false

/-- Is this a unit-dispatch event? -/
def isDispatch : StartupEvent → Bool
  | StartupEvent.dispatch _ => true
  | _ => false

/-- Is this a discovery/registration event? -/
def isDisc : StartupEvent → Bool
  | StartupEvent.disc _ => true
  | _ => false

/-- `precedes p q tr = true` iff every `p`-event of `tr` occurs strictly
before every `q`-event: once a `q`-event has appeared, no `p`-event
follows. -/
def precedes (p q : StartupEvent → Bool) : List StartupEvent → Bool
  | [] => true
  | e :: rest =>
    (if q e then rest.all (fun x => !p x) else true) && precedes p q rest

/-- `titanoboa(project_name)` (src/main.py lines 212–236) as an event
trace: generate orchestrator stubs, build `SharedLibs` and the
`Framework`, auto-discover and register, start the Server thread, start
the Client thread, then run every registered module in a sequential
dispatch loop.  `fs` is the filesystem as `auto_discover_and_register`
sees it (i.e. after `generate_orchestrators` has written its stubs);
`load` resolves imports; `ctx` is the shared-libs handle passed to every
unit. -/
def titanoboaTrace (load : String → Option Module) (fs : FS) (ctx : Ctx) :
    List StartupEvent :=
  let (fw, discEvs) := auto_discover_and_register load fs Fw.init
  StartupEvent.generate ::
    discEvs.map StartupEvent.disc ++
    [StartupEvent.startServer, StartupEvent.startClient] ++
    (run_all fw ctx).1.map StartupEvent.dispatch

/-- The CLI handler `main` (src/main.py lines 240–250), after argparse has
produced `command`: `init` runs the full startup; any other command only
logs `Unknown command`. -/
def mainTrace (load : String → Option Module) (fs : FS) (ctx : Ctx)
    (command : String) : List StartupEvent :=
  if command = "init" then titanoboaTrace load fs ctx
  else [StartupEvent.unknownCommandError]

/-! ## Registry lemmas -/

lemma hasName_iff (fw : Fw) (n : String) : fw.hasName n = true ↔ n ∈ fw.names :=
  List.elem_iff

lemma hasName_eq_false_iff (fw : Fw) (n : String) :
    fw.hasName n = false ↔ n ∉ fw.names := by
  rw [← hasName_iff]
  exact ⟨fun h h' => by simp [h] at h', fun h => Bool.eq_false_iff.mpr (fun h' => h h')⟩

lemma lookup_eq_none_iff (fw : Fw) (n : String) :
    fw.lookup n = none ↔ n ∉ fw.names := by
  simp only [Fw.lookup, Option.map_eq_none', List.find?_eq_none, Fw.names, List.mem_map,
    beq_iff_eq]
  constructor
  · rintro h ⟨p, hp, rfl⟩
    exact h p hp rfl
  · intro h p hp hpe
    exact h ⟨p, hp, hpe⟩

lemma register_module_of_hasName {fw : Fw} {n : String} (m : Module)
    (h : fw.hasName n = true) : register_module fw n m = (fw, RegOutcome.dup) := by
  simp [register_module, h]

lemma register_module_of_fresh {fw : Fw} {n : String} (m : Module)
    (h : fw.hasName n = false) :
    register_module fw n m = (⟨fw.modules ++ [(n, m)]⟩, RegOutcome.ok) := by
  simp [register_module, h]

lemma names_register {fw : Fw} {n : String} (m : Module) (h : fw.hasName n = false) :
    ((register_module fw n m).1).names = fw.names ++ [n] := by
  simp [register_module_of_fresh m h, Fw.names]

lemma lookup_register_self {fw : Fw} {n : String} (m : Module)
    (h : fw.hasName n = false) :
    ((register_module fw n m).1).lookup n = some m := by
  rw [register_module_of_fresh m h]
  show ((fw.modules ++ [(n, m)]).find? (fun p => p.1 == n)).map Prod.snd = some m
  have h1 : fw.modules.find? (fun p => p.1 == n) = none := by
    rw [List.find?_eq_none]
    intro p hp hpe
    exact (hasName_eq_false_iff fw n).mp h
      ((List.mem_map).mpr ⟨p, hp, by simpa using hpe⟩)
  rw [List.find?_append, h1]
  simp

lemma names_nodup_register {fw : Fw} (n : String) (m : Module)
    (h : fw.names.Nodup) : ((register_module fw n m).1).names.Nodup := by
  cases hn : fw.hasName n with
  | true => rw [register_module_of_hasName m hn]; exact h
  | false =>
    rw [names_register m hn]
    have hmem : n ∉ fw.names := (hasName_eq_false_iff fw n).mp hn
    simp [List.nodup_append, h, hmem]

lemma applyRegisters_nodup :
    ∀ (calls : List (String × Module)) (fw : Fw),
      fw.names.Nodup → (applyRegisters fw calls).names.Nodup
  | [], _, h => h
  | (n, m) :: rest, fw, h =>
    applyRegisters_nodup rest _ (names_nodup_register n m h)

/-- **C1.** A name is accepted at most once by the registry: the registered
names are duplicate-free for every sequence of `register_module` calls; a
`register_module` call with an already-present name returns the rejection
report (the `Module ... already exists!` error, the spec's
`DuplicateUnitError`) and leaves the registry state — hence every
registered descriptor and the registry size — unchanged; and after a
successful `register(name, d)`, a second register of `name` is rejected
while `name` still maps to `d`, the size having grown exactly once. -/
theorem register_duplicate_rejected :
    (∀ calls : List (String × Module), (applyRegisters Fw.init calls).names.Nodup) ∧
    (∀ (fw : Fw) (n : String) (m : Module), fw.hasName n = true →
      register_module fw n m = (fw, RegOutcome.dup)) ∧
    (∀ (fw : Fw) (n : String) (d d' : Module), fw.hasName n = false →
      register_module ((register_module fw n d).1) n d' =
        ((register_module fw n d).1, RegOutcome.dup) ∧
      ((register_module fw n d).1).lookup n = some d ∧
      ((register_module fw n d).1).names.length = fw.names.length + 1) := by
  refine ⟨fun calls => applyRegisters_nodup calls Fw.init List.nodup_nil,
    fun fw n m h => register_module_of_hasName m h, fun fw n d d' h => ?_⟩
  have h2 : ((register_module fw n d).1).hasName n = true := by
    rw [hasName_iff, names_register d h]
    simp
  exact ⟨register_module_of_hasName d' h2, lookup_register_self d h,
    by rw [names_register d h]; simp⟩

/-- Witness for C1: a concrete duplicate registration is rejected with the
registry unchanged, and after registering `b` the second registration of
`b` reports a duplicate. -/
theorem register_duplicate_rejected_witness :
    register_module ⟨[("a", ⟨0, true⟩)]⟩ "a" ⟨1, true⟩ =
      (⟨[("a", ⟨0, true⟩)]⟩, RegOutcome.dup) ∧
    (register_module ((register_module Fw.init "b" ⟨2, true⟩).1) "b" ⟨3, false⟩).2 =
      RegOutcome.dup := by
  refine ⟨register_duplicate_rejected.2.1 _ "a" _ (by decide), ?_⟩
  rw [(register_duplicate_rejected.2.2 Fw.init "b" ⟨2, true⟩ ⟨3, false⟩ (by decide)).1]

/-- **C3.** Dispatch by name: a name is absent from the registry exactly
when lookup misses; on a miss, `run_module` only emits the
`Module ... not found!` rejection (the spec's `UnitNotFoundError`) and
performs no invocation; on a hit of descriptor `d`, `run_module` performs
exactly one awaited invocation of `d`'s entry point, passing the shared
context and forwarding the extra arguments; after `register(name, d)` on a
fresh name, lookup of `name` yields `d`; and on the fresh registry every
lookup misses. -/
theorem run_module_dispatch :
    (∀ (fw : Fw) (n : String), fw.hasName n = false ↔ fw.lookup n = none) ∧
    (∀ (fw : Fw) (n : String) (ctx : Ctx) (args : Args), fw.lookup n = none →
      run_module fw n ctx args = ⟨true, [], false⟩) ∧
    (∀ (fw : Fw) (n : String) (ctx : Ctx) (args : Args) (d : Module),
      fw.lookup n = some d →
      run_module fw n ctx args = ⟨false, [⟨n, d, ctx, args⟩], !d.runOk⟩) ∧
    (∀ (fw : Fw) (n : String) (d : Module), fw.hasName n = false →
      ((register_module fw n d).1).lookup n = some d) ∧
    (∀ n : String, Fw.init.lookup n = none) := by
  refine ⟨fun fw n => (hasName_eq_false_iff fw n).trans (lookup_eq_none_iff fw n).symm,
    fun fw n ctx args h => ?_, fun fw n ctx args d h => ?_,
    fun fw n d h => lookup_register_self d h, fun n => rfl⟩
  · simp [run_module, h]
  · simp [run_module, h]

/-- Witness for C3: on the concrete registry `{a ↦ ⟨5, true⟩}`, a lookup
miss (`"z"`) yields only the not-found report with no invocation, and a
hit (`"a"`) invokes exactly the registered descriptor with the given
context and arguments. -/
theorem run_module_dispatch_witness :
    run_module ⟨[("a", ⟨5, true⟩)]⟩ "z" 0 [] = ⟨true, [], false⟩ ∧
    run_module ⟨[("a", ⟨5, true⟩)]⟩ "a" 3 [7] =
      ⟨false, [⟨"a", ⟨5, true⟩, 3, [7]⟩], false⟩ := by
  refine ⟨run_module_dispatch.2.1 _ "z" 0 [] (by decide), ?_⟩
  have h := run_module_dispatch.2.2.1 ⟨[("a", ⟨5, true⟩)]⟩ "a" 3 [7] ⟨5, true⟩ (by decide)
  simpa using h

/-! ## Channel theorems -/

/-- **C6.** Each iteration of the consumer loop either finds the channel
empty and changes nothing (the idle condition — no fault is reported), or
pops exactly the front entry and pushes exactly one derived acknowledgment
for it onto the same channel (so the length is preserved on a non-empty
channel); and the loop body is total, so the loop has no terminal state:
every channel state has a successor. -/
theorem server_loop_step :
    (serverStep [] = []) ∧
    (∀ (e : String) (t : Chan), serverStep (e :: t) = t ++ [serverAck e]) ∧
    (∀ q : Chan, q ≠ [] → (serverStep q).length = q.length) ∧
    (∀ q : Chan, ∃ q', ServerSteps q q') := by
  refine ⟨rfl, fun e t => rfl, fun q hq => ?_, fun q => ⟨serverStep q, rfl⟩⟩
  cases q with
  | nil => exact absurd rfl hq
  | cons e t => simp [serverStep]

/-- Witness for C6: on the concrete non-empty channel `["m"]`, the step
preserves the length, and a successor state exists. -/
theorem server_loop_step_witness :
    (serverStep ["m"]).length = (["m"] : Chan).length ∧
    ∃ q', ServerSteps ["m"] q' :=
  ⟨server_loop_step.2.2.1 ["m"] (by decide), server_loop_step.2.2.2 ["m"]⟩

/-- **C10.** The consumer does not distinguish acknowledgments from
original messages: whatever entry is at the front of the channel is popped
and re-acknowledged — in particular, an entry that is itself an
acknowledgment (one the producer failed to pop) gets a derived
acknowledgment of its own pushed back. -/
theorem server_reacks_acknowledgments :
    (∀ (e : String) (t : Chan), serverStep (e :: t) = t ++ [serverAck e]) ∧
    (∀ (m : String) (t : Chan),
      serverStep (serverAck m :: t) = t ++ [serverAck (serverAck m)]) :=
  ⟨fun e t => rfl, fun m t => rfl⟩

lemma countPush_clientIter (obs : Nat → Chan) (i : Nat) :
    countPush (clientIter obs i) = 1 := by
  unfold countPush clientIter
  cases h : obs i <;> simp [List.countP_append, List.countP_cons, isPush]

lemma countPop_clientIter (obs : Nat → Chan) (i : Nat) :
    countPop (clientIter obs i) = if obs i = [] then 0 else 1 := by
  unfold countPop clientIter
  cases h : obs i <;> simp [List.countP_append, List.countP_cons, isPush, isPop]

/-- **C7.** The producer loop terminates after exactly five iterations
(the source's fixed message count): its trace is exactly the concatenation
of the iteration traces for `i = 0..4`; every iteration pushes exactly one
message (`Client message i`, as its first action), then waits the fixed
one-second interval, and pops at most one entry — exactly one when the
channel it observes is non-empty, none when it is empty; in total exactly
five pushes. -/
theorem run_client_five_iterations (obs : Nat → Chan) :
    run_client obs 5 =
      clientIter obs 0 ++ clientIter obs 1 ++ clientIter obs 2 ++
        clientIter obs 3 ++ clientIter obs 4 ∧
    countPush (run_client obs 5) = 5 ∧
    (∀ i : Nat, countPush (clientIter obs i) = 1 ∧
      (clientIter obs i).head? = some (ClientEvent.push (clientMessage i)) ∧
      (clientIter obs i)[1]? = some (ClientEvent.wait 1) ∧
      countPop (clientIter obs i) = (if obs i = [] then 0 else 1) ∧
      countPop (clientIter obs i) ≤ 1) := by
  have htr : run_client obs 5 =
      clientIter obs 0 ++ clientIter obs 1 ++ clientIter obs 2 ++
        clientIter obs 3 ++ clientIter obs 4 := by
    show (List.range 5).flatMap (clientIter obs) = _
    rw [show List.range 5 = [0, 1, 2, 3, 4] from rfl]
    simp [List.flatMap_cons, List.append_assoc]
  refine ⟨htr, ?_, fun i => ⟨countPush_clientIter obs i, ?_, ?_,
    countPop_clientIter obs i, ?_⟩⟩
  · unfold countPush at *
    rw [htr]
    simp only [List.countP_append]
    have h0 := countPush_clientIter obs 0
    have h1 := countPush_clientIter obs 1
    have h2 := countPush_clientIter obs 2
    have h3 := countPush_clientIter obs 3
    have h4 := countPush_clientIter obs 4
    unfold countPush at h0 h1 h2 h3 h4
    omega
  · cases h : obs i <;> simp [clientIter]
  · cases h : obs i <;> simp [clientIter]
  · rw [countPop_clientIter obs i]
    cases h : obs i <;> simp

/-! ## Dispatch-loop (`run_all`) analysis -/

/-- Does dispatching `n` complete without raising?  (For a registered name,
whether the registered module's `run` completes normally; a missing name
is only logged, which does not raise.) -/
def okName (fw : Fw) (n : String) : Bool :=
  match fw.lookup n with
  | some m => m.runOk
  | none => true

lemma lookup_isSome_of_hasName {fw : Fw} {n : String} (h : fw.hasName n = true) :
    ∃ m, fw.lookup n = some m := by
  rw [hasName_iff] at h
  cases hl : fw.lookup n with
  | some m => exact ⟨m, rfl⟩
  | none => exact absurd h ((lookup_eq_none_iff fw n).mp hl)

lemma dispatchLoop_cons (fw : Fw) (ctx : Ctx) (n : String) (rest : List String) :
    dispatchLoop fw ctx (n :: rest) =
      if (run_module fw n ctx []).raised then ((run_module fw n ctx []).invoked, true)
      else ((run_module fw n ctx []).invoked ++ (dispatchLoop fw ctx rest).1,
        (dispatchLoop fw ctx rest).2) := by
  rcases hdl : dispatchLoop fw ctx rest with ⟨is, c⟩
  simp [dispatchLoop, hdl]

lemma dispatchLoop_spec (fw : Fw) (ctx : Ctx) :
    ∀ l : List String, (∀ n ∈ l, fw.hasName n = true) →
      (dispatchLoop fw ctx l).1.map Invocation.name =
        l.takeWhile (okName fw) ++ (l.dropWhile (okName fw)).take 1 ∧
      (dispatchLoop fw ctx l).2 = !l.all (okName fw) ∧
      (∀ inv ∈ (dispatchLoop fw ctx l).1,
        fw.lookup inv.name = some inv.mod ∧ inv.ctx = ctx ∧ inv.args = [])
  | [], _ => by simp [dispatchLoop]
  | n :: rest, h => by
    obtain ⟨m, hm⟩ := lookup_isSome_of_hasName (h n (List.mem_cons_self n rest))
    have hok : okName fw n = m.runOk := by simp [okName, hm]
    have ih := dispatchLoop_spec fw ctx rest (fun x hx => h x (List.mem_cons_of_mem n hx))
    cases hr : m.runOk with
    | false =>
      have hrun : run_module fw n ctx [] = ⟨false, [⟨n, m, ctx, []⟩], true⟩ := by
        simp [run_module, hm, hr]
      rw [dispatchLoop_cons, hrun]
      refine ⟨?_, ?_, ?_⟩
      · simp [List.takeWhile_cons, List.dropWhile_cons, hok, hr]
      · simp [List.all_cons, hok, hr]
      · intro inv hinv
        simp at hinv
        subst hinv
        exact ⟨hm, rfl, rfl⟩
    | true =>
      have hrun : run_module fw n ctx [] = ⟨false, [⟨n, m, ctx, []⟩], false⟩ := by
        simp [run_module, hm, hr]
      rw [dispatchLoop_cons, hrun]
      refine ⟨?_, ?_, ?_⟩
      · simp [List.takeWhile_cons, List.dropWhile_cons, hok, hr, ih.1]
      · simp [List.all_cons, hok, hr, ih.2.1]
      · intro inv hinv
        simp at hinv
        rcases hinv with rfl | he
        · exact ⟨hm, rfl, rfl⟩
        · exact ih.2.2 inv he

/-- Counterexample to **C2** as stated: on the registry that binds `"a"`
to a module whose entry point raises and `"b"` to a healthy module, the
dispatch loop invokes only `"a"` — the exception escapes `asyncio.run`
uncaught (the loop crashes, nothing is logged) and `"b"`, though
registered, is never invoked. -/
theorem run_all_abort_counterexample :
    (run_all ⟨[("a", ⟨0, false⟩), ("b", ⟨1, true⟩)]⟩ 0).1.map Invocation.name =
      ["a"] ∧
    "b" ∈ (Fw.names ⟨[("a", ⟨0, false⟩), ("b", ⟨1, true⟩)]⟩) ∧
    (run_all ⟨[("a", ⟨0, false⟩), ("b", ⟨1, true⟩)]⟩ 0).2 = true := by
  refine ⟨?_, by decide, ?_⟩ <;> rfl

/-- **C2 (amended).** `run_all` dispatches the registered units
sequentially in registration order, invoking each through its registered
descriptor with the shared context; when every unit's entry point
completes normally, every registered unit is invoked exactly once; but
when a unit's entry point raises, the invoked units are exactly the
prefix of the registration order up to and including the first failing
unit — the failure propagates uncaught (the loop crashes, unlogged) and
the remaining units are never invoked. -/
theorem run_all_amended (fw : Fw) (ctx : Ctx) (hnd : fw.names.Nodup) :
    (run_all fw ctx).1.map Invocation.name =
      fw.names.takeWhile (okName fw) ++ (fw.names.dropWhile (okName fw)).take 1 ∧
    (run_all fw ctx).2 = !fw.names.all (okName fw) ∧
    (∀ inv ∈ (run_all fw ctx).1,
      fw.lookup inv.name = some inv.mod ∧ inv.ctx = ctx ∧ inv.args = []) ∧
    (fw.names.all (okName fw) = true →
      (run_all fw ctx).1.map Invocation.name = fw.names ∧
      ∀ n ∈ fw.names, ((run_all fw ctx).1.map Invocation.name).count n = 1) := by
  have hall : ∀ n ∈ fw.names, fw.hasName n = true :=
    fun n hn => (hasName_iff fw n).mpr hn
  obtain ⟨h1, h2, h3⟩ := dispatchLoop_spec fw ctx fw.names hall
  refine ⟨h1, h2, h3, fun hok => ?_⟩
  have htake : fw.names.takeWhile (okName fw) = fw.names :=
    List.takeWhile_eq_self_iff.mpr (fun x hx => by
      simpa using List.all_eq_true.mp hok x hx)
  have hdrop : fw.names.dropWhile (okName fw) = [] :=
    List.dropWhile_eq_nil_iff.mpr (fun x hx => by
      simpa using List.all_eq_true.mp hok x hx)
  have hmap : (run_all fw ctx).1.map Invocation.name = fw.names := by
    have heq : fw.names.takeWhile (okName fw) ++
        (fw.names.dropWhile (okName fw)).take 1 = fw.names := by
      rw [htake, hdrop]
      simp
    exact h1.trans heq
  exact ⟨hmap, fun n hn => by rw [hmap]; exact List.count_eq_one_of_mem hnd hn⟩

/-- Witness for C2 (amended): on the concrete registry `{a, b}` with both
entry points healthy, `run_all` invokes exactly `a` then `b` and does not
crash. -/
theorem run_all_amended_witness :
    (run_all ⟨[("a", ⟨0, true⟩), ("b", ⟨1, true⟩)]⟩ 4).1.map Invocation.name =
      ["a", "b"] ∧
    (run_all ⟨[("a", ⟨0, true⟩), ("b", ⟨1, true⟩)]⟩ 4).2 = false := by
  have h := run_all_amended ⟨[("a", ⟨0, true⟩), ("b", ⟨1, true⟩)]⟩ 4 (by decide)
  exact ⟨(h.2.2.2 (by decide)).1, by rw [h.2.1]; decide⟩

/-! ## CLI / startup-order analysis -/

/-- Is this exactly the Server (consumer) thread start? -/
def isStartServerEv : StartupEvent → Bool
  | StartupEvent.startServer => true
  | _ => false

/-- Is this exactly the Client (producer) thread start? -/
def isStartClientEv : StartupEvent → Bool
  | StartupEvent.startClient => true
  | _ => false

lemma precedes_cons (p q : StartupEvent → Bool) (e : StartupEvent)
    (l : List StartupEvent) :
    precedes p q (e :: l) =
      ((if q e then l.all (fun x => !p x) else true) && precedes p q l) := rfl

lemma precedes_of_no_p (p q : StartupEvent → Bool) :
    ∀ l : List StartupEvent, (∀ e ∈ l, p e = false) → precedes p q l = true
  | [], _ => rfl
  | e :: l, h => by
    rw [precedes_cons]
    have hl : precedes p q l = true :=
      precedes_of_no_p p q l (fun x hx => h x (List.mem_cons_of_mem e hx))
    have ha : l.all (fun x => !p x) = true :=
      List.all_eq_true.mpr (fun x hx => by
        rw [h x (List.mem_cons_of_mem e hx)]; rfl)
    rcases hq : q e <;> simp [hl, ha]

lemma precedes_append_of (p q : StartupEvent → Bool) :
    ∀ (l₁ l₂ : List StartupEvent), (∀ e ∈ l₁, q e = false) →
      (∀ e ∈ l₂, p e = false) → precedes p q (l₁ ++ l₂) = true
  | [], l₂, _, h₂ => precedes_of_no_p p q l₂ h₂
  | e :: l₁, l₂, h₁, h₂ => by
    rw [List.cons_append, precedes_cons, h₁ e (List.mem_cons_self e l₁)]
    have := precedes_append_of p q l₁ l₂
      (fun x hx => h₁ x (List.mem_cons_of_mem e hx)) h₂
    simp [this]

/-- Counterexample to **C8** as stated: with one discoverable unit
(`models/a_orchestrate.py`, resolving successfully), the `init` startup
trace starts the Server and Client threads *before* dispatching the
registered unit, so the claimed order "dispatch of all units, then
starting Producer and Consumer" is violated. -/
theorem cli_startup_order_counterexample :
    precedes isDispatch isStart
      (mainTrace (fun n => if n = "models.a_orchestrate" then some ⟨0, true⟩ else none)
        (fun t => if t = "models" then ⟨true, ["a_orchestrate.py"]⟩ else ⟨false, []⟩)
        0 "init") = false := by
  decide

/-- **C8 (amended).** The `init` subcommand triggers the full startup
sequence — generation first, then discovery and registration, then
starting the Producer and Consumer threads (each started exactly once),
and only then the sequential dispatch of the registered units; every
discovery event precedes both thread starts and both thread starts
precede every dispatch.  Every other command triggers no startup at all:
its whole trace is the single logged `Unknown command` error. -/
theorem cli_init_startup_amended (load : String → Option Module) (fs : FS)
    (ctx : Ctx) (cmd : String) :
    (cmd ≠ "init" → mainTrace load fs ctx cmd = [StartupEvent.unknownCommandError]) ∧
    mainTrace load fs ctx "init" = titanoboaTrace load fs ctx ∧
    (titanoboaTrace load fs ctx).head? = some StartupEvent.generate ∧
    (titanoboaTrace load fs ctx).countP isStartServerEv = 1 ∧
    (titanoboaTrace load fs ctx).countP isStartClientEv = 1 ∧
    precedes isDisc isStart (titanoboaTrace load fs ctx) = true ∧
    precedes isStart isDispatch (titanoboaTrace load fs ctx) = true := by
  rcases hd : auto_discover_and_register load fs Fw.init with ⟨fw, evs⟩
  have htr : titanoboaTrace load fs ctx =
      StartupEvent.generate ::
        evs.map StartupEvent.disc ++
        [StartupEvent.startServer, StartupEvent.startClient] ++
        (run_all fw ctx).1.map StartupEvent.dispatch := by
    simp only [titanoboaTrace, hd]
  have hz : ∀ (p : StartupEvent → Bool) {β : Type} (f : β → StartupEvent),
      (∀ b, p (f b) = false) → ∀ l : List β, List.countP (p ∘ f) l = 0 :=
    fun p β f hf l => List.countP_eq_zero.mpr
      (fun a _ h => by rw [Function.comp_apply, hf a] at h; exact Bool.false_ne_true h)
  refine ⟨fun h => by simp [mainTrace, h], by simp [mainTrace], ?_, ?_, ?_, ?_, ?_⟩
  · rw [htr]; rfl
  · rw [htr]
    simp only [List.countP_cons, List.countP_append, List.countP_map]
    rw [hz isStartServerEv StartupEvent.disc (fun _ => rfl),
      hz isStartServerEv StartupEvent.dispatch (fun _ => rfl)]
    simp [isStartServerEv]
  · rw [htr]
    simp only [List.countP_cons, List.countP_append, List.countP_map]
    rw [hz isStartClientEv StartupEvent.disc (fun _ => rfl),
      hz isStartClientEv StartupEvent.dispatch (fun _ => rfl)]
    simp [isStartClientEv]
  · rw [htr]
    have : StartupEvent.generate :: evs.map StartupEvent.disc ++
        [StartupEvent.startServer, StartupEvent.startClient] ++
        (run_all fw ctx).1.map StartupEvent.dispatch =
      (StartupEvent.generate :: evs.map StartupEvent.disc) ++
        ([StartupEvent.startServer, StartupEvent.startClient] ++
          (run_all fw ctx).1.map StartupEvent.dispatch) := by
      simp
    rw [this]
    refine precedes_append_of _ _ _ _ ?_ ?_
    · intro e he
      rcases List.mem_cons.mp he with rfl | he'
      · rfl
      · obtain ⟨x, _, rfl⟩ := List.mem_map.mp he'
        rfl
    · intro e he
      rcases List.mem_append.mp he with he' | he'
      · simp only [List.mem_cons, List.mem_singleton] at he'
        rcases he' with rfl | rfl | h
        · rfl
        · rfl
        · exact absurd h (List.not_mem_nil e)
      · obtain ⟨x, _, rfl⟩ := List.mem_map.mp he'
        rfl
  · rw [htr]
    have : StartupEvent.generate :: evs.map StartupEvent.disc ++
        [StartupEvent.startServer, StartupEvent.startClient] ++
        (run_all fw ctx).1.map StartupEvent.dispatch =
      (StartupEvent.generate :: evs.map StartupEvent.disc ++
        [StartupEvent.startServer, StartupEvent.startClient]) ++
        (run_all fw ctx).1.map StartupEvent.dispatch := by
      simp
    rw [this]
    refine precedes_append_of _ _ _ _ ?_ ?_
    · intro e he
      rcases List.mem_cons.mp he with rfl | he'
      · rfl
      · rcases List.mem_append.mp he' with he'' | he''
        · obtain ⟨x, _, rfl⟩ := List.mem_map.mp he''
          rfl
        · simp only [List.mem_cons, List.mem_singleton] at he''
          rcases he'' with rfl | rfl | h
          · rfl
          · rfl
          · exact absurd h (List.not_mem_nil e)
    · intro e he
      obtain ⟨x, _, rfl⟩ := List.mem_map.mp he
      rfl

/-- Witness for C8 (amended): the concrete command `"run"` produces only
the logged `Unknown command` rejection (no startup events at all). -/
theorem cli_init_startup_amended_witness :
    mainTrace (fun _ => none) (fun _ => ⟨false, []⟩) 0 "run" =
      [StartupEvent.unknownCommandError] :=
  (cli_init_startup_amended (fun _ => none) (fun _ => ⟨false, []⟩) 0 "run").1
    (by decide)

/-! ## Discovery: sorting order -/

lemma charListLe_total : ∀ a b : List Char, charListLe a b = true ∨ charListLe b a = true
  | [], _ => Or.inl rfl
  | _ :: _, [] => Or.inr rfl
  | a :: as, b :: bs => by
    rcases Nat.lt_trichotomy a.toNat b.toNat with h | h | h
    · left; simp [charListLe, h]
    · rcases charListLe_total as bs with ih | ih
      · left; simp [charListLe, h, ih]
      · right; simp [charListLe, h.symm, ih]
    · right; simp [charListLe, h]

lemma charListLe_trans : ∀ a b c : List Char, charListLe a b = true →
    charListLe b c = true → charListLe a c = true
  | [], _, _, _, _ => rfl
  | _ :: _, [], _, h, _ => by simp [charListLe] at h
  | _ :: _, _ :: _, [], _, h => by simp [charListLe] at h
  | a :: as, b :: bs, c :: cs, h₁, h₂ => by
    simp only [charListLe] at h₁ h₂ ⊢
    rcases Nat.lt_trichotomy a.toNat b.toNat with hab | hab | hab
    · rcases Nat.lt_trichotomy b.toNat c.toNat with hbc | hbc | hbc
      · simp [Nat.lt_trans hab hbc]
      · simp [hbc ▸ hab]
      · simp [charListLe, hbc, Nat.lt_asymm hbc] at h₂
    · rcases Nat.lt_trichotomy b.toNat c.toNat with hbc | hbc | hbc
      · simp [hab ▸ hbc]
      · have hac : a.toNat = c.toNat := hab.trans hbc
        simp only [hab, hbc, lt_irrefl, if_false, if_neg (lt_irrefl _)] at h₁ h₂
        simp [hac, charListLe_trans as bs cs h₁ h₂]
      · simp [hbc, Nat.lt_asymm hbc] at h₂
    · simp [hab, Nat.lt_asymm hab] at h₁

lemma charListLe_antisymm : ∀ a b : List Char, charListLe a b = true →
    charListLe b a = true → a = b
  | [], [], _, _ => rfl
  | [], _ :: _, _, h => by simp [charListLe] at h
  | _ :: _, [], h, _ => by simp [charListLe] at h
  | a :: as, b :: bs, h₁, h₂ => by
    simp only [charListLe] at h₁ h₂
    rcases Nat.lt_trichotomy a.toNat b.toNat with hab | hab | hab
    · simp [hab, Nat.lt_asymm hab] at h₂
    · have ha : a = b := Char.ext (UInt32.ext hab)
      simp only [hab, lt_irrefl, if_false, if_neg (lt_irrefl _)] at h₁ h₂
      rw [ha, charListLe_antisymm as bs h₁ h₂]
    · simp [hab, Nat.lt_asymm hab] at h₁

instance : IsTotal String (fun a b => strLe a b = true) :=
  ⟨fun a b => charListLe_total a.data b.data⟩

instance : IsTrans String (fun a b => strLe a b = true) :=
  ⟨fun a b c => charListLe_trans a.data b.data c.data⟩

instance : IsAntisymm String (fun a b => strLe a b = true) :=
  ⟨fun a b h₁ h₂ => String.ext (charListLe_antisymm a.data b.data h₁ h₂)⟩

lemma pySorted_sorted (l : List String) :
    (pySorted l).Sorted (fun a b => strLe a b = true) :=
  List.sorted_insertionSort _ l

lemma pySorted_perm (l : List String) : (pySorted l).Perm l :=
  List.perm_insertionSort _ l

lemma pySorted_eq_of_perm {l l' : List String} (h : l.Perm l') :
    pySorted l = pySorted l' :=
  List.eq_of_perm_of_sorted
    ((pySorted_perm l).trans (h.trans (pySorted_perm l').symm))
    (pySorted_sorted l) (pySorted_sorted l')

/-! ## Discovery: event structure -/

lemma processFiles_cons_nonCand {load : String → Option Module} {t f : String}
    {rest : List String} {fw : Fw} (h : isCandidate f = false) :
    processFiles load t (f :: rest) fw = processFiles load t rest fw := by
  simp [processFiles, h]

lemma processFiles_cons_fail {load : String → Option Module} {t f : String}
    {rest : List String} {fw : Fw} (h : isCandidate f = true)
    (hl : load (unitName t f) = none) :
    processFiles load t (f :: rest) fw =
      ((processFiles load t rest fw).1,
        DiscEvent.loadFailure (unitName t f) :: (processFiles load t rest fw).2) := by
  rcases hp : processFiles load t rest fw with ⟨fw', evs⟩
  simp [processFiles, h, hl, hp]

lemma processFiles_cons_ok_fresh {load : String → Option Module} {t f : String}
    {rest : List String} {fw : Fw} {m : Module} (h : isCandidate f = true)
    (hl : load (unitName t f) = some m) (hn : fw.hasName (unitName t f) = false) :
    processFiles load t (f :: rest) fw =
      ((processFiles load t rest ⟨fw.modules ++ [(unitName t f, m)]⟩).1,
        DiscEvent.registered (unitName t f) ::
          (processFiles load t rest ⟨fw.modules ++ [(unitName t f, m)]⟩).2) := by
  rcases hp : processFiles load t rest ⟨fw.modules ++ [(unitName t f, m)]⟩ with ⟨fw', evs⟩
  simp [processFiles, h, hl, register_module, hn, hp]

lemma processFiles_cons_ok_dup {load : String → Option Module} {t f : String}
    {rest : List String} {fw : Fw} {m : Module} (h : isCandidate f = true)
    (hl : load (unitName t f) = some m) (hn : fw.hasName (unitName t f) = true) :
    processFiles load t (f :: rest) fw =
      ((processFiles load t rest fw).1,
        DiscEvent.dupRejected (unitName t f) :: (processFiles load t rest fw).2) := by
  rcases hp : processFiles load t rest fw with ⟨fw', evs⟩
  simp [processFiles, h, hl, register_module, hn, hp]

lemma processFiles_names (load : String → Option Module) (t : String) :
    ∀ (l : List String) (fw : Fw),
      (processFiles load t l fw).2.map DiscEvent.name =
        (l.filter isCandidate).map (unitName t)
  | [], fw => rfl
  | f :: rest, fw => by
    cases hc : isCandidate f with
    | false =>
      rw [processFiles_cons_nonCand hc, processFiles_names load t rest fw]
      simp [List.filter_cons, hc]
    | true =>
      cases hl : load (unitName t f) with
      | none =>
        rw [processFiles_cons_fail hc hl]
        simp only [List.map_cons, DiscEvent.name, List.filter_cons, hc, if_true]
        rw [processFiles_names load t rest fw]
      | some m =>
        cases hn : fw.hasName (unitName t f) with
        | false =>
          rw [processFiles_cons_ok_fresh hc hl hn]
          simp only [List.map_cons, DiscEvent.name, List.filter_cons, hc, if_true]
          rw [processFiles_names load t rest _]
        | true =>
          rw [processFiles_cons_ok_dup hc hl hn]
          simp only [List.map_cons, DiscEvent.name, List.filter_cons, hc, if_true]
          rw [processFiles_names load t rest fw]

lemma discoverCategory_names (load : String → Option Module) (t : String)
    (d : Dir) (fw : Fw) :
    (discoverCategory load t d fw).2.map DiscEvent.name =
      (candidates d).map (unitName t) := by
  cases hp : d.present with
  | false => simp [discoverCategory, candidates, hp]
  | true =>
    simp only [discoverCategory, candidates, hp, if_true]
    exact processFiles_names load t (pySorted d.files) fw

lemma discoverCats_names (load : String → Option Module) (fs : FS) :
    ∀ (ts : List String) (fw : Fw),
      (discoverCats load fs ts fw).2.map DiscEvent.name =
        ts.flatMap (fun t => (candidates (fs t)).map (unitName t))
  | [], fw => rfl
  | t :: ts, fw => by
    rcases h₁ : discoverCategory load t (fs t) fw with ⟨fw₁, evs₁⟩
    simp only [discoverCats, h₁, List.flatMap_cons, List.map_append]
    rw [show evs₁ = (discoverCategory load t (fs t) fw).2 from by rw [h₁],
      discoverCategory_names, discoverCats_names load fs ts fw₁]

/-- **C5.** Discovery is deterministic: the registration attempts of a
full discovery run are, category by category (in the fixed category
order), exactly the candidate files — those ending in `.py` and containing
the marker token `orchestrate` — of the category's listing in sorted
filename order, each under the name `<category>.<file-stem>`; the
processed candidate order within a category is sorted (lexicographic) and
depends only on the *set* of files: any permutation of the directory
listing (and equal existence flag) yields the identical discovery
result. -/
theorem discovery_deterministic_order (load : String → Option Module) (fs : FS)
    (fw : Fw) :
    (auto_discover_and_register load fs fw).2.map DiscEvent.name =
      module_types.flatMap (fun t => (candidates (fs t)).map (unitName t)) ∧
    (∀ d : Dir, (candidates d).Sorted (fun a b => strLe a b = true)) ∧
    (∀ d : Dir, ∀ f ∈ candidates d, isCandidate f = true) ∧
    (∀ (t : String) (d d' : Dir), d.present = d'.present → d.files.Perm d'.files →
      discoverCategory load t d fw = discoverCategory load t d' fw) := by
  refine ⟨discoverCats_names load fs module_types fw, fun d => ?_, fun d f hf => ?_,
    fun t d d' hp hperm => ?_⟩
  · cases hp : d.present with
    | false => simp [candidates, hp]
    | true =>
      simp only [candidates, hp, if_true]
      exact (pySorted_sorted d.files).filter _
  · cases hp : d.present with
    | false => simp [candidates, hp] at hf
    | true =>
      simp only [candidates, hp, if_true] at hf
      exact List.of_mem_filter hf
  · simp only [discoverCategory, hp, pySorted_eq_of_perm hperm]

/-- Witness for C5: two listings of the same directory in different
`os.listdir` orders produce the identical discovery result. -/
theorem discovery_deterministic_order_witness :
    discoverCategory (fun _ => none) "models"
      ⟨true, ["b_orchestrate.py", "a_orchestrate.py"]⟩ Fw.init =
    discoverCategory (fun _ => none) "models"
      ⟨true, ["a_orchestrate.py", "b_orchestrate.py"]⟩ Fw.init :=
  (discovery_deterministic_order (fun _ => none)
    (fun _ => ⟨false, []⟩) Fw.init).2.2.2 "models" _ _ rfl
    (by constructor)

/-- **C9.** A category whose directory does not exist is silently skipped:
discovery over it registers nothing, raises nothing and logs nothing (its
contribution is the unchanged registry and an empty event list), and the
full run behaves exactly as if that category's directory existed and were
empty — all remaining categories are still processed. -/
theorem discovery_skips_absent_categories (load : String → Option Module)
    (fs : FS) (fw : Fw) (t : String) :
    (∀ d : Dir, d.present = false → discoverCategory load t d fw = (fw, [])) ∧
    ((fs t).present = false →
      auto_discover_and_register load fs fw =
        auto_discover_and_register load
          (fun x => if x = t then ⟨true, []⟩ else fs x) fw) := by
  constructor
  · intro d hd
    simp [discoverCategory, hd]
  · intro habs
    have key : ∀ (ts : List String) (fw₀ : Fw),
        discoverCats load fs ts fw₀ =
          discoverCats load (fun x => if x = t then ⟨true, []⟩ else fs x) ts fw₀ := by
      intro ts
      induction ts with
      | nil => intro fw₀; rfl
      | cons t' ts ih =>
        intro fw₀
        by_cases ht : t' = t
        · subst ht
          have h₁ : discoverCategory load t' (fs t') fw₀ = (fw₀, []) := by
            simp [discoverCategory, habs]
          have h₂ : discoverCategory load t' (⟨true, []⟩ : Dir) fw₀ = (fw₀, []) := by
            simp [discoverCategory, pySorted, List.insertionSort, processFiles]
          simp [discoverCats, h₁, h₂, ih fw₀]
        · have h₂ : (fun x => if x = t then (⟨true, []⟩ : Dir) else fs x) t' = fs t' := by
            simp [ht]
          simp only [discoverCats, h₂, ih]
    exact key module_types fw

/-- Witness for C9: with only `models` existing (and empty), discovery
over a category record marked absent contributes nothing, and the full
run equals the run where the absent directories are empty-but-present. -/
theorem discovery_skips_absent_categories_witness :
    discoverCategory (fun _ => none) "models" ⟨false, ["x_orchestrate.py"]⟩ Fw.init =
      (Fw.init, []) ∧
    auto_discover_and_register (fun _ => none) (fun _ => ⟨false, []⟩) Fw.init =
      auto_discover_and_register (fun _ => none)
        (fun x => if x = "models" then ⟨true, []⟩ else (fun _ => (⟨false, []⟩ : Dir)) x)
        Fw.init :=
  ⟨(discovery_skips_absent_categories (fun _ => none) (fun _ => ⟨false, []⟩)
      Fw.init "models").1 _ rfl,
    (discovery_skips_absent_categories (fun _ => none) (fun _ => ⟨false, []⟩)
      Fw.init "models").2 rfl⟩

/-! ## Discovery: exact event/registration characterization -/

/-- The single discovery event a candidate file produces when its unit
name is fresh: a successful resolution registers it, a failed resolution
is logged. -/
def evOf (load : String → Option Module) (t : String) (f : String) : DiscEvent :=
  match load (unitName t f) with
  | some _ => DiscEvent.registered (unitName t f)
  | none => DiscEvent.loadFailure (unitName t f)

/-- The names a category contributes to the registry: the successfully
resolving candidates, in processing order. -/
def catGood (load : String → Option Module) (t : String) (d : Dir) : List String :=
  ((candidates d).filter (fun f => (load (unitName t f)).isSome)).map (unitName t)

lemma dropLast_three {α : Type} (l : List α) (a b c : α) :
    ((l ++ [a, b, c]).dropLast.dropLast.dropLast) = l := by
  have h1 : l ++ [a, b, c] = (l ++ [a, b]) ++ [c] := by simp
  have h2 : l ++ [a, b] = (l ++ [a]) ++ [b] := by simp
  rw [h1, List.dropLast_concat, h2, List.dropLast_concat, List.dropLast_concat]

lemma py_suffix_of_isCandidate {f : String} (h : isCandidate f = true) :
    ∃ pre : List Char, f.data = pre ++ ['.', 'p', 'y'] := by
  have h1 : (".py".toList.isSuffixOf f.toList) = true :=
    (Bool.and_eq_true _ _).mp h |>.1
  rw [List.isSuffixOf_iff_suffix] at h1
  obtain ⟨pre, hpre⟩ := h1
  exact ⟨pre, hpre.symm⟩

lemma stem_of_py {f : String} {pre : List Char}
    (h : f.data = pre ++ ['.', 'p', 'y']) : stem f = ⟨pre⟩ := by
  show (⟨f.data.dropLast.dropLast.dropLast⟩ : String) = ⟨pre⟩
  rw [h, dropLast_three]

lemma isCandidate_stem_inj {f₁ f₂ : String} (h₁ : isCandidate f₁ = true)
    (h₂ : isCandidate f₂ = true) (he : stem f₁ = stem f₂) : f₁ = f₂ := by
  obtain ⟨p₁, hp₁⟩ := py_suffix_of_isCandidate h₁
  obtain ⟨p₂, hp₂⟩ := py_suffix_of_isCandidate h₂
  rw [stem_of_py hp₁, stem_of_py hp₂] at he
  have : p₁ = p₂ := congrArg String.data he
  exact String.ext (by rw [hp₁, hp₂, this])

lemma unitName_data (t f : String) :
    (unitName t f).data = t.data ++ '.' :: (stem f).data := by
  show (t ++ "." ++ stem f).data = _
  rw [String.data_append, String.data_append]
  simp

lemma unitName_inj_same {t f₁ f₂ : String} (h₁ : isCandidate f₁ = true)
    (h₂ : isCandidate f₂ = true) (he : unitName t f₁ = unitName t f₂) : f₁ = f₂ := by
  have hd : t.data ++ '.' :: (stem f₁).data = t.data ++ '.' :: (stem f₂).data := by
    rw [← unitName_data, ← unitName_data, he]
  have : (stem f₁).data = (stem f₂).data :=
    List.cons_injective.eq_iff.mp (List.append_cancel_left hd)
  exact isCandidate_stem_inj h₁ h₂ (String.ext this)

lemma append_dot_inj :
    ∀ (l₁ : List Char), '.' ∉ l₁ → ∀ (l₂ : List Char), '.' ∉ l₂ →
      ∀ r₁ r₂ : List Char, l₁ ++ '.' :: r₁ = l₂ ++ '.' :: r₂ → l₁ = l₂
  | [], _, [], _, _, _, _ => rfl
  | [], _, c :: l₂, h₂, r₁, r₂, h => by
    simp only [List.nil_append, List.cons_append, List.cons.injEq] at h
    exact absurd (h.1 ▸ List.mem_cons_self c l₂) h₂
  | c :: l₁, h₁, [], _, r₁, r₂, h => by
    simp only [List.nil_append, List.cons_append, List.cons.injEq] at h
    exact absurd (h.1 ▸ List.mem_cons_self c l₁) h₁
  | a :: l₁, h₁, b :: l₂, h₂, r₁, r₂, h => by
    simp only [List.cons_append, List.cons.injEq] at h
    rw [h.1, append_dot_inj l₁ (fun hm => h₁ (List.mem_cons_of_mem a hm)) l₂
      (fun hm => h₂ (List.mem_cons_of_mem b hm)) r₁ r₂ h.2]

lemma unitName_cross {t₁ t₂ f₁ f₂ : String} (hd₁ : '.' ∉ t₁.data)
    (hd₂ : '.' ∉ t₂.data) (hne : t₁ ≠ t₂) : unitName t₁ f₁ ≠ unitName t₂ f₂ := by
  intro he
  have hd : t₁.data ++ '.' :: (stem f₁).data = t₂.data ++ '.' :: (stem f₂).data := by
    rw [← unitName_data, ← unitName_data, he]
  exact hne (String.ext (append_dot_inj t₁.data hd₁ t₂.data hd₂ _ _ hd))

lemma processFiles_spec (load : String → Option Module) (t : String) :
    ∀ (l : List String) (fw : Fw),
      ((l.filter isCandidate).map (unitName t)).Nodup →
      (∀ f ∈ l, isCandidate f = true → fw.hasName (unitName t f) = false) →
      (processFiles load t l fw).2 = (l.filter isCandidate).map (evOf load t) ∧
      (processFiles load t l fw).1.names = fw.names ++
        (l.filter (fun f => isCandidate f && (load (unitName t f)).isSome)).map
          (unitName t)
  | [], fw, _, _ => ⟨rfl, by simp [processFiles]⟩
  | f :: rest, fw, hnd, hfresh => by
    cases hc : isCandidate f with
    | false =>
      rw [processFiles_cons_nonCand hc]
      have hnd' : ((rest.filter isCandidate).map (unitName t)).Nodup := by
        simpa [List.filter_cons, hc] using hnd
      have ih := processFiles_spec load t rest fw hnd'
        (fun g hg => hfresh g (List.mem_cons_of_mem f hg))
      refine ⟨?_, ?_⟩
      · rw [ih.1]; simp [List.filter_cons, hc]
      · rw [ih.2]; simp [List.filter_cons, hc]
    | true =>
      have hnd' : ((rest.filter isCandidate).map (unitName t)).Nodup := by
        simp only [List.filter_cons, hc, if_true, List.map_cons] at hnd
        exact hnd.of_cons
      have hhead : unitName t f ∉ (rest.filter isCandidate).map (unitName t) := by
        simp only [List.filter_cons, hc, if_true, List.map_cons] at hnd
        exact (List.nodup_cons.mp hnd).1
      cases hl : load (unitName t f) with
      | none =>
        rw [processFiles_cons_fail hc hl]
        have ih := processFiles_spec load t rest fw hnd'
          (fun g hg => hfresh g (List.mem_cons_of_mem f hg))
        refine ⟨?_, ?_⟩
        · rw [ih.1]
          simp [List.filter_cons, hc, evOf, hl]
        · rw [ih.2]
          simp [List.filter_cons, hc, hl]
      | some m =>
        have hn : fw.hasName (unitName t f) = false :=
          hfresh f (List.mem_cons_self f rest) hc
        rw [processFiles_cons_ok_fresh hc hl hn]
        have hnames₁ : (Fw.mk (fw.modules ++ [(unitName t f, m)])).names =
            fw.names ++ [unitName t f] := by
          simp [Fw.names]
        have hfresh₁ : ∀ g ∈ rest, isCandidate g = true →
            (Fw.mk (fw.modules ++ [(unitName t f, m)])).hasName (unitName t g) = false := by
          intro g hg hgc
          rw [hasName_eq_false_iff, hnames₁, List.mem_append]
          rintro (hmem | hmem)
          · exact (hasName_eq_false_iff fw _).mp
              (hfresh g (List.mem_cons_of_mem f hg) hgc) hmem
          · rw [List.mem_singleton] at hmem
            exact hhead (hmem ▸ List.mem_map_of_mem (unitName t)
              (List.mem_filter.mpr ⟨hg, hgc⟩))
        have ih := processFiles_spec load t rest _ hnd' hfresh₁
        refine ⟨?_, ?_⟩
        · rw [ih.1]
          simp [List.filter_cons, hc, evOf, hl]
        · rw [ih.2, hnames₁]
          simp [List.filter_cons, hc, hl, List.append_assoc]

lemma candidates_names_nodup (t : String) (d : Dir) (hnd : d.files.Nodup) :
    ((candidates d).map (unitName t)).Nodup := by
  cases hp : d.present with
  | false => simp [candidates, hp]
  | true =>
    simp only [candidates, hp, if_true]
    refine List.Nodup.map_on ?_ (((pySorted_perm d.files).nodup_iff.mpr hnd).filter _)
    intro x hx y hy he
    exact unitName_inj_same (List.mem_filter.mp hx).2 (List.mem_filter.mp hy).2 he

lemma discoverCategory_spec (load : String → Option Module) (t : String) (d : Dir)
    (fw : Fw) (hnd : d.files.Nodup)
    (hfresh : ∀ f, isCandidate f = true → fw.hasName (unitName t f) = false) :
    (discoverCategory load t d fw).2 = (candidates d).map (evOf load t) ∧
    (discoverCategory load t d fw).1.names = fw.names ++ catGood load t d := by
  cases hp : d.present with
  | false => simp [discoverCategory, candidates, catGood, hp]
  | true =>
    have hnd' : (((pySorted d.files).filter isCandidate).map (unitName t)).Nodup := by
      have := candidates_names_nodup t d hnd
      simpa [candidates, hp] using this
    have hpf := processFiles_spec load t (pySorted d.files) fw hnd'
      (fun f _ hc => hfresh f hc)
    have hcand : candidates d = (pySorted d.files).filter isCandidate := by
      simp [candidates, hp]
    have hgood : catGood load t d =
        ((pySorted d.files).filter
          (fun f => isCandidate f && (load (unitName t f)).isSome)).map (unitName t) := by
      unfold catGood
      rw [hcand, List.filter_filter]
      exact congrArg _ (List.filter_congr (fun a _ => Bool.and_comm _ _))
    constructor
    · rw [hcand]
      simpa [discoverCategory, hp] using hpf.1
    · rw [hgood]
      simpa [discoverCategory, hp] using hpf.2

lemma discoverCats_spec (load : String → Option Module) (fs : FS) :
    ∀ (ts : List String) (fw : Fw), ts.Nodup →
      (∀ t ∈ ts, '.' ∉ t.data) →
      (∀ t ∈ ts, (fs t).files.Nodup) →
      (∀ t ∈ ts, ∀ f, isCandidate f = true → fw.hasName (unitName t f) = false) →
      (discoverCats load fs ts fw).2 =
        ts.flatMap (fun t => (candidates (fs t)).map (evOf load t)) ∧
      (discoverCats load fs ts fw).1.names =
        fw.names ++ ts.flatMap (fun t => catGood load t (fs t))
  | [], fw, _, _, _, _ => ⟨rfl, by simp [discoverCats]⟩
  | t :: ts, fw, hnd, hdot, hfiles, hfresh => by
    have hcat := discoverCategory_spec load t (fs t) fw
      (hfiles t (List.mem_cons_self t ts))
      (fun f hc => hfresh t (List.mem_cons_self t ts) f hc)
    rcases h₁ : discoverCategory load t (fs t) fw with ⟨fw₁, evs₁⟩
    rw [h₁] at hcat
    have hev₁ : evs₁ = (candidates (fs t)).map (evOf load t) := hcat.1
    have hn₁ : fw₁.names = fw.names ++ catGood load t (fs t) := hcat.2
    have hfresh₁ : ∀ t' ∈ ts, ∀ f, isCandidate f = true →
        fw₁.hasName (unitName t' f) = false := by
      intro t' ht' f hc
      rw [hasName_eq_false_iff, hn₁, List.mem_append]
      rintro (hm | hm)
      · exact (hasName_eq_false_iff fw _).mp
          (hfresh t' (List.mem_cons_of_mem t ht') f hc) hm
      · obtain ⟨g, _, hge⟩ := List.mem_map.mp hm
        have htne : t ≠ t' := by
          rintro rfl
          exact (List.nodup_cons.mp hnd).1 ht'
        exact unitName_cross (hdot t (List.mem_cons_self t ts))
          (hdot t' (List.mem_cons_of_mem t ht')) htne hge
    have ih := discoverCats_spec load fs ts fw₁ hnd.of_cons
      (fun x hx => hdot x (List.mem_cons_of_mem t hx))
      (fun x hx => hfiles x (List.mem_cons_of_mem t hx)) hfresh₁
    constructor
    · simp only [discoverCats, h₁, List.flatMap_cons]
      rw [hev₁]
      exact congrArg _ ih.1
    · simp only [discoverCats, h₁, List.flatMap_cons]
      rw [ih.2, hn₁, List.append_assoc]

lemma countP_flatMap {α β : Type} (p : β → Bool) (g : α → List β) :
    ∀ l : List α, (l.flatMap g).countP p = (l.map (fun a => (g a).countP p)).sum
  | [] => rfl
  | a :: l => by
    simp [List.flatMap_cons, List.countP_append, countP_flatMap p g l]

lemma countRegistered_cat (load : String → Option Module) (t : String) (d : Dir) :
    countRegistered ((candidates d).map (evOf load t)) = goodCount load t d := by
  unfold countRegistered goodCount
  rw [List.countP_map,
    List.countP_congr (q := fun f => (load (unitName t f)).isSome)
      (fun f _ => by cases hl : load (unitName t f) <;>
        simp [evOf, hl, isRegisteredEv, Function.comp]),
    List.countP_eq_length_filter]

lemma countLoadFailures_cat (load : String → Option Module) (t : String) (d : Dir) :
    countLoadFailures ((candidates d).map (evOf load t)) = badCount load t d := by
  unfold countLoadFailures badCount
  rw [List.countP_map,
    List.countP_congr (q := fun f => (load (unitName t f)).isNone)
      (fun f _ => by cases hl : load (unitName t f) <;>
        simp [evOf, hl, isLoadFailureEv, Function.comp]),
    List.countP_eq_length_filter]

/-- **C4.** Partial-failure discovery: over any filesystem state (with the
real-world guarantee that each directory listing has no duplicate
entries), a full discovery run starting from the fresh registry registers
exactly one unit per successfully resolving candidate (K in total, summed
over the categories — the registry ends with exactly K names) and logs
exactly one load failure per candidate whose resolution fails (M in
total); this holds for every interleaving of resolving and failing
candidates in the listings, so no load failure ever aborts the processing
of the remaining candidates. -/
theorem discovery_partial_failure_counts (load : String → Option Module) (fs : FS)
    (hnd : ∀ t ∈ module_types, (fs t).files.Nodup) :
    countRegistered (auto_discover_and_register load fs Fw.init).2 =
      (module_types.map (fun t => goodCount load t (fs t))).sum ∧
    countLoadFailures (auto_discover_and_register load fs Fw.init).2 =
      (module_types.map (fun t => badCount load t (fs t))).sum ∧
    (auto_discover_and_register load fs Fw.init).1.names.length =
      (module_types.map (fun t => goodCount load t (fs t))).sum := by
  obtain ⟨hev, hnames⟩ := discoverCats_spec load fs module_types Fw.init
    (by decide) (by decide) hnd (fun t _ f _ => rfl)
  refine ⟨?_, ?_, ?_⟩
  · show countRegistered (discoverCats load fs module_types Fw.init).2 = _
    rw [hev]
    unfold countRegistered
    rw [countP_flatMap]
    exact congrArg _ (List.map_congr_left (fun t _ => countRegistered_cat load t (fs t)))
  · show countLoadFailures (discoverCats load fs module_types Fw.init).2 = _
    rw [hev]
    unfold countLoadFailures
    rw [countP_flatMap]
    exact congrArg _ (List.map_congr_left (fun t _ => countLoadFailures_cat load t (fs t)))
  · show (discoverCats load fs module_types Fw.init).1.names.length = _
    rw [hnames]
    show (([] : List String) ++ _).length = _
    rw [List.nil_append, List.length_flatMap]
    refine congrArg _ (List.map_congr_left (fun t _ => ?_))
    show (catGood load t (fs t)).length = goodCount load t (fs t)
    unfold catGood goodCount
    rw [List.length_map]

/-- Witness for C4: a fixture with one resolving candidate
(`models/a_orchestrate.py`) and one failing candidate
(`models/b_orchestrate.py`) registers exactly one unit and logs exactly
one load failure — the interleaved failure did not abort discovery. -/
theorem discovery_partial_failure_counts_witness :
    countRegistered (auto_discover_and_register
      (fun n => if n = "models.a_orchestrate" then some ⟨0, true⟩ else none)
      (fun t => if t = "models" then ⟨true, ["b_orchestrate.py", "a_orchestrate.py"]⟩
        else ⟨false, []⟩) Fw.init).2 = 1 ∧
    countLoadFailures (auto_discover_and_register
      (fun n => if n = "models.a_orchestrate" then some ⟨0, true⟩ else none)
      (fun t => if t = "models" then ⟨true, ["b_orchestrate.py", "a_orchestrate.py"]⟩
        else ⟨false, []⟩) Fw.init).2 = 1 ∧
    (auto_discover_and_register
      (fun n => if n = "models.a_orchestrate" then some ⟨0, true⟩ else none)
      (fun t => if t = "models" then ⟨true, ["b_orchestrate.py", "a_orchestrate.py"]⟩
        else ⟨false, []⟩) Fw.init).1.names.length = 1 := by
  have h := discovery_partial_failure_counts
    (fun n => if n = "models.a_orchestrate" then some ⟨0, true⟩ else none)
    (fun t => if t = "models" then ⟨true, ["b_orchestrate.py", "a_orchestrate.py"]⟩
      else ⟨false, []⟩) (by decide)
  exact ⟨h.1.trans (by decide), h.2.1.trans (by decide), h.2.2.trans (by decide)⟩

end Titanoboa
